import Mathlib

/-!
Shallow embedding of the credential-vault core of `mychart_ledger`
(`src/ledger_backend.py`, with the HTTP glue of `src/app_api.py`).

Modelling conventions:
* Python strings are modelled as `List Char` (named `Str` below), so that
  `str.split("|")` can be modelled by a structurally recursive function we
  can reason about.
* The SQLite table `user_credentials` (primary key `user_id`) is modelled
  as a map `Str → Option Credential`; `INSERT OR REPLACE` is a point
  update, `UPDATE ... WHERE user_id=?` updates the record at the key when
  present.
* Time is abstract: instants are integers (seconds); `datetime.now()` is
  passed in as an explicit `now` argument; `timedelta(hours=24)` is the
  constant `hours24`.
* The external `cryptography.fernet.Fernet` object is modelled by a
  `Cipher` structure: `encrypt` is total, `decrypt` returns `none` where
  Fernet would raise `InvalidToken`.
* The external `datetime` string conversions are modelled by a `TimeCodec`
  structure: `fmt` models `str(expiry)` (the f-string interpolation on
  line 86), `parse` models `datetime.fromisoformat`, returning `none`
  where Python would raise `ValueError`.
* `secrets.token_urlsafe(32)` is a fresh random value; the generated token
  is passed to `reset_password` as an explicit oracle argument `tok`.
-/

/-- Python strings, modelled as lists of characters. -/
abbrev Str := List Char

/-- Model of Python `s.split("|")` for a one-character separator and no
maxsplit, as used on line 108 of `src/ledger_backend.py`.  Python returns
`[""]` on the empty string, and splitting on every occurrence of the
separator otherwise. -/
def splitOnPipe : Str → List Str
  | [] => [[]]
  | c :: rest =>
    if c = '|' then [] :: splitOnPipe rest
    else
      match splitOnPipe rest with
      | s :: ss => (c :: s) :: ss
      | [] => [[c]]

/-- A row of the `user_credentials` table
(`src/app.py` lines 39-47: columns `user_id`, `encrypted_username`,
`encrypted_password`, `hint`, `biometric_enabled`; `user_id` is the map
key). -/
structure Credential where
  encrypted_username : Str
  encrypted_password : Str
  hint : Str
  biometric_enabled : Bool
deriving DecidableEq, Repr

/-- The `user_credentials` table, keyed by `user_id`. -/
abbrev CredTable := Str → Option Credential

/-- Model of the process-wide `Fernet` cipher (`self.cipher_suite`).
`decrypt` is `none` where Fernet raises `InvalidToken`. -/
structure Cipher where
  encrypt : Str → Str
  decrypt : Str → Option Str

/-- Model of the external `datetime` string conversions: `fmt` models
`str` on a datetime (as interpolated into `f"{reset_token}|{expiry}"`),
`parse` models `datetime.fromisoformat` (`none` where Python raises
`ValueError`). -/
structure TimeCodec where
  fmt : Int → Str
  parse : Str → Option Int

/-- Value of `timedelta(hours=24)` in seconds. -/
def hours24 : Int := 24 * 60 * 60

/-- Model of `LedgerBackend.store_credentials` (`src/ledger_backend.py` lines
31-43): encrypt username and password and `INSERT OR REPLACE` the row for
`user_id`, with the given hint and `biometric_enabled = False`.  No input
validation is performed. -/
def store_credentials (cipher : Cipher) (s : CredTable)
    (user_id username password hint : Str) : CredTable :=
  fun v =>
    if v = user_id then
      some { encrypted_username := cipher.encrypt username
             encrypted_password := cipher.encrypt password
             hint := hint
             biometric_enabled := false }
    else s v

/-- Result of `LedgerBackend.retrieve_credentials`: `notFound` models the
`None` return when no row exists; `decryptError` models the uncaught
`InvalidToken` exception when Fernet decryption fails; `ok` carries the
decrypted fields in the returned dict. -/
inductive RetrieveResult where
  | notFound
  | decryptError
  | ok (username password hint : Str) (biometric_enabled : Bool)
deriving DecidableEq, Repr

/-- Model of `LedgerBackend.retrieve_credentials` (`src/ledger_backend.py` lines
45-70): look up the row; `None` if absent; otherwise decrypt both
ciphertext fields (username first, as in the source) and return the dict. -/
def retrieve_credentials (cipher : Cipher) (s : CredTable)
    (user_id : Str) : RetrieveResult :=
  match s user_id with
  | none => .notFound
  | some c =>
    match cipher.decrypt c.encrypted_username with
    | none => .decryptError
    | some u =>
      match cipher.decrypt c.encrypted_password with
      | none => .decryptError
      | some p => .ok u p c.hint c.biometric_enabled

/-- The `{token, expiry}` dict returned by a successful `reset_password`. -/
structure ResetInfo where
  token : Str
  expiry : Int
deriving DecidableEq, Repr

/-- Model of `LedgerBackend.reset_password` (`src/ledger_backend.py` lines 72-96):
confirm the user exists via `retrieve_credentials` (returning `None` when
it does not, and also when the `try` block is aborted by a decryption
exception, which the blanket `except` turns into `None`); otherwise store
`f"{reset_token}|{expiry}"` into the `hint` column of that user's row and
return the token together with `expiry = now + 24h`.  The freshly
generated `secrets.token_urlsafe(32)` value is the oracle argument `tok`;
the call time is the explicit argument `now`. -/
def reset_password (cipher : Cipher) (tc : TimeCodec) (s : CredTable)
    (user_id tok : Str) (now : Int) : Option ResetInfo × CredTable :=
  match retrieve_credentials cipher s user_id with
  | .ok _ _ _ _ =>
    let expiry := now + hours24
    let s' : CredTable := fun v =>
      if v = user_id then
        (s v).map (fun c => { c with hint := tok ++ '|' :: tc.fmt expiry })
      else s v
    (some { token := tok, expiry := expiry }, s')
  | _ => (none, s)

/-- Model of `LedgerBackend.verify_reset_token` (`src/ledger_backend.py` lines
98-120): read the `hint` column; `False` when the row is absent or the
hint is empty; split the hint on `"|"`, requiring exactly two parts;
`False` when the expiry part does not parse; finally `True` iff the
candidate equals the stored token and `now` is strictly before expiry. -/
def verify_reset_token (tc : TimeCodec) (s : CredTable)
    (user_id tok : Str) (now : Int) : Bool :=
  match s user_id with
  | none => false
  | some c =>
    if c.hint = [] then false
    else
      match splitOnPipe c.hint with
      | [stored_token, expiry_str] =>
        match tc.parse expiry_str with
        | none => false
        | some expiry_time =>
          if tok = stored_token ∧ now < expiry_time then true else false
      | _ => false

/-- The HTTP handler `store_credentials` of `src/app_api.py` (lines 7-19):
`data.get` yields `None` for a missing field (`none` here), the handler
answers 400 without calling the backend when `user_id`, `username` or
`password` is missing or empty (Python falsiness of `None` and `""`), and
otherwise calls `backend.store_credentials` and answers 200.  `hint`
defaults to the empty string via `data.get('hint', '')`, which is already
applied in the `hint` argument. -/
def api_store_credentials (cipher : Cipher) (s : CredTable)
    (user_id username password : Option Str) (hint : Str) :
    Nat × CredTable :=
  match user_id, username, password with
  | some uid, some u, some p =>
    if uid = [] ∨ u = [] ∨ p = [] then (400, s)
    else (200, store_credentials cipher s uid u p hint)
  | _, _, _ => (400, s)

/-- Truthiness test Python applies in `if not user_id or not username or
not password` on line 15 of `src/app_api.py`: a field is falsy when
missing (`None`) or the empty string. -/
def pyFalsy : Option Str → Bool
  | none => true
  | some s => s.isEmpty

/-- An opaque face encoding (the fixed-dimension feature vector the
external collaborator would produce). -/
abbrev Encoding := List Int

/-- The `user_biometrics` table (`src/ledger_backend.py` lines 21-26):
`user_id TEXT PRIMARY KEY, face_encoding BLOB`, modelled as an
association list with upsert semantics. -/
abbrev BioTable := List (Str × Encoding)

/-- Model of `INSERT OR REPLACE INTO user_biometrics` (lines 138-141). -/
def bioUpsert (t : BioTable) (user_id : Str) (e : Encoding) : BioTable :=
  (user_id, e) :: t.filter (fun r => r.1 ≠ user_id)

/-- Outcome of a call into the external `face_recognition` collaborator:
either it raises an exception, or it returns a list of encodings. -/
inductive ExtractOutcome where
  | raised
  | found (encodings : List Encoding)

/-- Names bound at module level in `src/ledger_backend.py` (its lines
1-5: `sqlite3`, `logging`, `Fernet`, `secrets`, `datetime`, `timedelta`).
`face_recognition` is not among them. -/
def ledgerBackendModuleNames : List String :=
  ["sqlite3", "logging", "Fernet", "secrets", "datetime", "timedelta"]

/-- Whether the name `face_recognition` is bound in
`src/ledger_backend.py`.  It is not: the module is never imported, so its
first use on line 125 (or 154) raises `NameError`. -/
def face_recognition_bound : Bool :=
  ledgerBackendModuleNames.contains "face_recognition"

/-- Model of `LedgerBackend.enroll_user_biometrics` (`src/ledger_backend.py` lines
122-149).  The whole body is a `try` block whose `except Exception`
handler returns `False`.  The first statement uses the unbound name
`face_recognition`; when it is unbound that raises `NameError` and the
handler returns `False` with no database write.  Were the name bound, the
body would ask the collaborator for the encodings of the image (`extract`,
covering `load_image_file` + `face_encodings`, with `raised` for any
exception): zero encodings return `False`; otherwise the first encoding is
upserted and the call returns `True`. -/
def enroll_user_biometrics (extract : Str → ExtractOutcome)
    (bio : BioTable) (user_id image_path : Str) : Bool × BioTable :=
  if face_recognition_bound then
    match extract image_path with
    | .raised => (false, bio)
    | .found [] => (false, bio)
    | .found (e :: _) => (true, bioUpsert bio user_id e)
  else (false, bio)

/-- The comparison loop of lines 172-177 of
`src/ledger_backend.py`, over the rows of `user_biometrics`. -/
def authLoop (reencode : Encoding → ExtractOutcome)
    (compare : List Encoding → Encoding → Option Bool)
    (input : Encoding) : List (Str × Encoding) → Option Str
  | [] => none
  | (uid, stored) :: rest =>
    match reencode stored with
    | .raised => none
    | .found stored2 =>
      match compare stored2 input with
      | none => none
      | some true => some uid
      | some false => authLoop reencode compare input rest

/-- Model of `LedgerBackend.authenticate_user_with_biometrics`
(`src/ledger_backend.py` lines 151-183).  Same `try`/`except` shape as
enrollment, with `None` as the failure value; the unbound
`face_recognition` name raises `NameError` on line 154 before anything
else, so the handler returns `None`.  Were the name bound: zero encodings
return `None`; otherwise the loop re-runs feature extraction on each
stored blob (`reencode`, line 173, with `raised` for any exception, which
the handler turns into `None`) and asks the collaborator for a match
verdict (`compare`, line 174, `none` for an exception or an empty verdict
list making `match[0]` raise); the first user with a `True` verdict is
returned, else `None`. -/
def authenticate_user_with_biometrics (extract : Str → ExtractOutcome)
    (reencode : Encoding → ExtractOutcome)
    (compare : List Encoding → Encoding → Option Bool)
    (bio : BioTable) (image_path : Str) : Option Str :=
  if face_recognition_bound then
    match extract image_path with
    | .raised => none
    | .found [] => none
    | .found (input :: _) => authLoop reencode compare input bio
  else none

/-- Spec-side success condition for `verify` (from the spec's words in
§4.2: a token is stored for the user, the stored value parses into
`(storedToken, expiry)`, the candidate equals `storedToken`, and
`now < expiry`). -/
def tokenVerifiesSpec (tc : TimeCodec) (s : CredTable)
    (user_id tok : Str) (now : Int) : Prop :=
  ∃ c stored_token expiry_str expiry_time,
    s user_id = some c ∧
    splitOnPipe c.hint = [stored_token, expiry_str] ∧
    tc.parse expiry_str = some expiry_time ∧
    tok = stored_token ∧ now < expiry_time

/-! Concrete instances used to exercise the definitions. -/

/-- A cipher whose ciphertext is the plaintext itself; it satisfies the
round-trip law of an authenticated cipher and is used to instantiate
theorems at concrete inputs. -/
def idCipher : Cipher := { encrypt := fun m => m, decrypt := fun c => some c }

/-- A time codec that prints instants in decimal and never parses
anything back (every `parse` is a `ValueError`). -/
def noParseCodec : TimeCodec :=
  { fmt := fun t => (toString t).toList, parse := fun _ => none }

/-- A sample user id. -/
def uidA : Str := "u1".toList

/-- A sample username. -/
def userA : Str := "alice".toList

/-- A sample password. -/
def passA : Str := "pw".toList

/-- A sample hint (no separator in it). -/
def hintA : Str := "h".toList

/-- A sample first reset token. -/
def tokA : Str := "tokenOne".toList

/-- A sample second reset token. -/
def tokB : Str := "tokenTwo".toList

/-- A sample image path. -/
def imgA : Str := "face.png".toList

/-- A sample credential row, as `idCipher` would store it, with the
biometric flag raised. -/
def credA : Credential :=
  { encrypted_username := userA, encrypted_password := passA,
    hint := hintA, biometric_enabled := true }

/-- A one-row sample table holding `credA` under `uidA`. -/
def tableA : CredTable := fun v => if v = uidA then some credA else none

/-! Helper lemmas about the split model. -/

theorem splitOnPipe_ne_nil (l : Str) : splitOnPipe l ≠ [] := by
  induction l with
  | nil => simp [splitOnPipe]
  | cons c rest ih =>
    simp only [splitOnPipe]
    by_cases h : c = '|'
    · simp [h]
    · simp only [if_neg h]
      cases hr : splitOnPipe rest with
      | nil => simp
      | cons s ss => simp

theorem splitOnPipe_singleton (l x : Str) (h : splitOnPipe l = [x]) :
    x = l := by
  induction l generalizing x with
  | nil => simpa [splitOnPipe] using h
  | cons c rest ih =>
    simp only [splitOnPipe] at h
    by_cases hc : c = '|'
    · rw [if_pos hc] at h
      obtain ⟨h1, h2⟩ := List.cons_eq_cons.mp h
      exact absurd h2 (splitOnPipe_ne_nil rest)
    · rw [if_neg hc] at h
      cases hr : splitOnPipe rest with
      | nil => exact absurd hr (splitOnPipe_ne_nil rest)
      | cons s ss =>
        rw [hr] at h
        obtain ⟨h1, h2⟩ := List.cons_eq_cons.mp h
        have hsr : s = rest := ih s (by rw [hr, h2])
        rw [← h1, hsr]

theorem two_le_splitOnPipe_append_length (a b : Str) :
    2 ≤ (splitOnPipe (a ++ '|' :: b)).length := by
  induction a with
  | nil =>
    have h1 := List.length_pos.mpr (splitOnPipe_ne_nil b)
    have h2 : splitOnPipe ([] ++ '|' :: b) = [] :: splitOnPipe b := by
      simp [splitOnPipe]
    rw [h2, List.length_cons]
    omega
  | cons c a ih =>
    simp only [List.cons_append, splitOnPipe, List.append_eq]
    simp only [List.append_eq] at ih
    by_cases hc : c = '|'
    · rw [if_pos hc]
      have h1 := List.length_pos.mpr (splitOnPipe_ne_nil (List.append a ('|' :: b)))
      simp only [List.length_cons]
      omega
    · rw [if_neg hc]
      cases hr : splitOnPipe (a ++ '|' :: b) with
      | nil => exact absurd hr (splitOnPipe_ne_nil _)
      | cons s ss =>
        rw [hr] at ih
        simp only [List.length_cons] at ih ⊢
        omega

theorem splitOnPipe_pair (t f st es : Str)
    (h : splitOnPipe (t ++ '|' :: f) = [st, es]) : st = t ∧ es = f := by
  induction t generalizing st with
  | nil =>
    simp only [List.nil_append, splitOnPipe, if_pos rfl] at h
    obtain ⟨h1, h2⟩ := List.cons_eq_cons.mp h
    exact ⟨h1.symm, splitOnPipe_singleton f es h2⟩
  | cons c t ih =>
    simp only [List.cons_append, splitOnPipe, List.append_eq] at h
    simp only [List.append_eq] at ih
    by_cases hc : c = '|'
    · rw [if_pos hc] at h
      obtain ⟨h1, h2⟩ := List.cons_eq_cons.mp h
      have hge := two_le_splitOnPipe_append_length t f
      simp only [List.append_eq] at hge
      rw [h2] at hge
      simp at hge
    · rw [if_neg hc] at h
      cases hr : splitOnPipe (t ++ '|' :: f) with
      | nil => exact absurd hr (splitOnPipe_ne_nil _)
      | cons s ss =>
        rw [hr] at h
        obtain ⟨h1, h2⟩ := List.cons_eq_cons.mp h
        obtain ⟨hs, hf⟩ := ih s (by rw [hr, h2])
        subst hs
        exact ⟨h1.symm, hf⟩

/-- Unfolding equation for `verify_reset_token` when no row exists. -/
theorem verify_eq_none (tc : TimeCodec) (s : CredTable) (uid tok : Str)
    (now : Int) (hc : s uid = none) :
    verify_reset_token tc s uid tok now = false := by
  unfold verify_reset_token
  rw [hc]

/-- Unfolding equation for `verify_reset_token` when a row exists. -/
theorem verify_eq_some (tc : TimeCodec) (s : CredTable) (uid tok : Str)
    (now : Int) (c : Credential) (hc : s uid = some c) :
    verify_reset_token tc s uid tok now =
      (if c.hint = [] then false
       else
         match splitOnPipe c.hint with
         | [stored_token, expiry_str] =>
           match tc.parse expiry_str with
           | none => false
           | some expiry_time =>
             if tok = stored_token ∧ now < expiry_time then true else false
         | _ => false) := by
  unfold verify_reset_token
  rw [hc]

/-- C1.  `verify(user_id, token)` returns `true` if and only if a token
value is stored for the user, the stored value splits into exactly the
pair `(storedToken, expiry)`, the expiry parses as a timestamp, the
candidate equals `storedToken`, and the current time is strictly before
the expiry; in every other case it returns `false`. -/
theorem verify_reset_token_iff_spec (tc : TimeCodec) (s : CredTable)
    (uid tok : Str) (now : Int) :
    verify_reset_token tc s uid tok now = true ↔
      tokenVerifiesSpec tc s uid tok now := by
  constructor
  · intro hv
    cases hcu : s uid with
    | none =>
      rw [verify_eq_none tc s uid tok now hcu] at hv
      exact absurd hv (by simp)
    | some c =>
      rw [verify_eq_some tc s uid tok now c hcu] at hv
      by_cases hh : c.hint = []
      · rw [if_pos hh] at hv
        exact absurd hv (by simp)
      · rw [if_neg hh] at hv
        cases hsp : splitOnPipe c.hint with
        | nil => rw [hsp] at hv; simp at hv
        | cons s1 t1 =>
          cases t1 with
          | nil => rw [hsp] at hv; simp at hv
          | cons s2 t2 =>
            cases t2 with
            | cons s3 t3 => rw [hsp] at hv; simp at hv
            | nil =>
              rw [hsp] at hv
              simp only [] at hv
              cases hp : tc.parse s2 with
              | none => rw [hp] at hv; simp at hv
              | some e =>
                rw [hp] at hv
                simp only [] at hv
                by_cases hcond : tok = s1 ∧ now < e
                · exact ⟨c, s1, s2, e, hcu, hsp, hp, hcond.1, hcond.2⟩
                · rw [if_neg hcond] at hv
                  exact absurd hv (by simp)
  · intro hspec
    obtain ⟨c, st, es, e, hc, hsp, hp, ht, hlt⟩ := hspec
    rw [verify_eq_some tc s uid tok now c hc]
    have hh : c.hint ≠ [] := by
      intro h0
      rw [h0] at hsp
      simp [splitOnPipe] at hsp
    rw [if_neg hh, hsp]
    simp only []
    rw [hp]
    simp only []
    rw [if_pos ⟨ht, hlt⟩]

/-- C2.  Retrieving immediately after storing returns exactly the
original username and password (decryption under the process-wide key
inverts encryption), together with the stored hint and
`biometric_enabled = false`. -/
theorem retrieve_after_store_roundtrip (cipher : Cipher) (s : CredTable)
    (uid u p h : Str)
    (hrt : ∀ m, cipher.decrypt (cipher.encrypt m) = some m)
    (hu : u ≠ []) (hp : p ≠ []) :
    retrieve_credentials cipher (store_credentials cipher s uid u p h) uid =
      .ok u p h false := by
  unfold retrieve_credentials store_credentials
  simp [hrt]

/-- Witness for C2 at a concrete cipher, table and inputs. -/
theorem retrieve_after_store_roundtrip_inst :
    retrieve_credentials idCipher
      (store_credentials idCipher (fun _ => none) uidA userA passA hintA)
      uidA = .ok userA passA hintA false :=
  retrieve_after_store_roundtrip idCipher (fun _ => none) uidA userA passA
    hintA (fun _ => rfl) (by decide) (by decide)

/-- C6.  `verify` is total (it is a Lean function into `Bool`) and treats
malformed stored state as no valid token: whenever the hint does not split
into exactly a `(storedToken, expiry)` pair, or the expiry part does not
parse as a timestamp, the result is `false` rather than an error. -/
theorem verify_malformed_state_false (tc : TimeCodec) (s : CredTable)
    (uid tok : Str) (now : Int) (c : Credential)
    (hc : s uid = some c)
    (hmal : ∀ st es, splitOnPipe c.hint = [st, es] → tc.parse es = none) :
    verify_reset_token tc s uid tok now = false := by
  rw [verify_eq_some tc s uid tok now c hc]
  by_cases hh : c.hint = []
  · rw [if_pos hh]
  · rw [if_neg hh]
    cases hsp : splitOnPipe c.hint with
    | nil => simp only []
    | cons s1 t1 =>
      cases t1 with
      | nil => simp only []
      | cons s2 t2 =>
        cases t2 with
        | cons s3 t3 => simp only []
        | nil =>
          simp only []
          rw [hmal s1 s2 hsp]

/-- Witness for C6: a stored hint with no separator, under a codec whose
parse always fails. -/
theorem verify_malformed_state_false_inst :
    verify_reset_token noParseCodec tableA uidA tokA 0 = false :=
  verify_malformed_state_false noParseCodec tableA uidA tokA 0 credA
    (by decide) (fun _ _ _ => rfl)

/-- C10.  `store` unconditionally writes `biometric_enabled = False`: for
every prior state (including one whose record had the flag raised), the
record stored for `user_id` after `store_credentials` has
`biometric_enabled = false`. -/
theorem store_disables_biometric_flag (cipher : Cipher) (s : CredTable)
    (uid u p h : Str) :
    ∃ c, store_credentials cipher s uid u p h uid = some c ∧
      c.biometric_enabled = false :=
  ⟨{ encrypted_username := cipher.encrypt u,
     encrypted_password := cipher.encrypt p,
     hint := h, biometric_enabled := false },
   by unfold store_credentials; rw [if_pos rfl], rfl⟩

/-- Unfolding equation for `retrieve_credentials` when the row exists and
both fields decrypt. -/
theorem retrieve_ok_lookup (cipher : Cipher) (s : CredTable) (uid : Str)
    (c : Credential) (u p : Str) (hc : s uid = some c)
    (hu : cipher.decrypt c.encrypted_username = some u)
    (hp : cipher.decrypt c.encrypted_password = some p) :
    retrieve_credentials cipher s uid = .ok u p c.hint c.biometric_enabled := by
  unfold retrieve_credentials
  rw [hc]
  simp only []
  rw [hu]
  simp only []
  rw [hp]

/-- Behaviour of a successful `reset_password` call: the returned token
and expiry, and the updated table. -/
theorem reset_password_ok (cipher : Cipher) (tc : TimeCodec) (s : CredTable)
    (uid tok : Str) (now : Int) (c : Credential) (u p : Str)
    (hc : s uid = some c)
    (hu : cipher.decrypt c.encrypted_username = some u)
    (hp : cipher.decrypt c.encrypted_password = some p) :
    reset_password cipher tc s uid tok now =
      (some { token := tok, expiry := now + hours24 },
       fun v => if v = uid then
           some { c with hint := tok ++ '|' :: tc.fmt (now + hours24) }
         else s v) := by
  unfold reset_password
  rw [retrieve_ok_lookup cipher s uid c u p hc hu hp]
  simp only []
  have hfun : (fun v => if v = uid then
        (s v).map (fun c0 => { c0 with
          hint := tok ++ '|' :: tc.fmt (now + hours24) })
      else s v) =
      (fun v => if v = uid then
        some { c with hint := tok ++ '|' :: tc.fmt (now + hours24) }
      else s v) := by
    funext v
    by_cases hv : v = uid
    · rw [if_pos hv, if_pos hv, hv, hc]
      rfl
    · rw [if_neg hv, if_neg hv]
  rw [hfun]

/-- C5.  `issue(user_id)` fails (returns `None`, the code's rendering of
`NotFound`) when no credential record exists; otherwise it returns the
pair `(token, now + 24h)` and persists that pair in the user's record, as
`token|expiry`, replacing whatever was there.  The token itself is the
value of `secrets.token_urlsafe(32)` (32 bytes, i.e. 256 bits of
cryptographically secure entropy, URL-safe encoded), modelled as the
oracle argument `tok`. -/
theorem reset_password_contract (cipher : Cipher) (tc : TimeCodec)
    (s : CredTable) (uid tok : Str) (now : Int) :
    (s uid = none → reset_password cipher tc s uid tok now = (none, s)) ∧
    (∀ c u p, s uid = some c →
      cipher.decrypt c.encrypted_username = some u →
      cipher.decrypt c.encrypted_password = some p →
      (reset_password cipher tc s uid tok now).1 =
          some { token := tok, expiry := now + hours24 } ∧
        (reset_password cipher tc s uid tok now).2 uid =
          some { c with hint := tok ++ '|' :: tc.fmt (now + hours24) }) := by
  constructor
  · intro hnone
    unfold reset_password retrieve_credentials
    rw [hnone]
  · intro c u p hc hu hp
    rw [reset_password_ok cipher tc s uid tok now c u p hc hu hp]
    refine ⟨rfl, ?_⟩
    simp

/-- Witness for C5: the not-found conjunct on the empty table and the
success conjunct on the one-row table. -/
theorem reset_password_contract_inst :
    reset_password idCipher noParseCodec (fun _ => none) uidA tokA 0 =
        (none, fun _ => none) ∧
      (reset_password idCipher noParseCodec tableA uidA tokA 0).1 =
        some { token := tokA, expiry := 0 + hours24 } ∧
      (reset_password idCipher noParseCodec tableA uidA tokA 0).2 uidA =
        some { credA with
               hint := tokA ++ '|' :: noParseCodec.fmt (0 + hours24) } :=
  ⟨(reset_password_contract idCipher noParseCodec (fun _ => none) uidA tokA
      0).1 rfl,
   (reset_password_contract idCipher noParseCodec tableA uidA tokA 0).2
     credA userA passA (by decide) rfl rfl⟩

/-- C8.  A successful `issue` modifies only the `hint` field of the
user's record — overwriting it with `token|expiry` and thereby destroying
the user-authored hint — while `encrypted_username`,
`encrypted_password`, `biometric_enabled`, and every other user's record
are unchanged. -/
theorem reset_password_frame (cipher : Cipher) (tc : TimeCodec)
    (s : CredTable) (uid tok : Str) (now : Int) (c : Credential) (u p : Str)
    (hc : s uid = some c)
    (hu : cipher.decrypt c.encrypted_username = some u)
    (hp : cipher.decrypt c.encrypted_password = some p) :
    (reset_password cipher tc s uid tok now).2 uid =
      some { encrypted_username := c.encrypted_username,
             encrypted_password := c.encrypted_password,
             hint := tok ++ '|' :: tc.fmt (now + hours24),
             biometric_enabled := c.biometric_enabled } ∧
    (∀ v, v ≠ uid → (reset_password cipher tc s uid tok now).2 v = s v) := by
  rw [reset_password_ok cipher tc s uid tok now c u p hc hu hp]
  constructor
  · simp
  · intro v hv
    simp only []
    rw [if_neg hv]

/-- Witness for C8 at a concrete state: the token lands in the hint of
the one stored record, other users are untouched. -/
theorem reset_password_frame_inst :
    (reset_password idCipher noParseCodec tableA uidA tokA 0).2 uidA =
      some { encrypted_username := credA.encrypted_username,
             encrypted_password := credA.encrypted_password,
             hint := tokA ++ '|' :: noParseCodec.fmt (0 + hours24),
             biometric_enabled := credA.biometric_enabled } ∧
    (∀ v, v ≠ uidA →
      (reset_password idCipher noParseCodec tableA uidA tokA 0).2 v =
        tableA v) :=
  reset_password_frame idCipher noParseCodec tableA uidA tokA 0 credA userA
    passA (by decide) rfl rfl

/-- Any `reset_password` call that returns a token leaves the user's
record present, with its hint overwritten by `token|expiry`. -/
theorem reset_password_some_hint (cipher : Cipher) (tc : TimeCodec)
    (s : CredTable) (uid t : Str) (now : Int) (r : ResetInfo)
    (hr : (reset_password cipher tc s uid t now).1 = some r) :
    ∃ c, s uid = some c ∧
      (reset_password cipher tc s uid t now).2 uid =
        some { c with hint := t ++ '|' :: tc.fmt (now + hours24) } := by
  unfold reset_password at hr ⊢
  cases hre : retrieve_credentials cipher s uid with
  | notFound =>
    rw [hre] at hr
    simp at hr
  | decryptError =>
    rw [hre] at hr
    simp at hr
  | ok u p hint0 b =>
    have hcu : ∃ c, s uid = some c := by
      unfold retrieve_credentials at hre
      cases hc : s uid with
      | none => rw [hc] at hre; simp at hre
      | some c => exact ⟨c, rfl⟩
    obtain ⟨c, hc⟩ := hcu
    refine ⟨c, hc, ?_⟩
    simp only []
    rw [if_true, hc]
    rfl

/-- When the stored hint is `other|rest` for `other ≠ candidate`,
`verify` answers `false`, whatever the remainder and the clock say. -/
theorem verify_false_of_other_token (tc : TimeCodec) (s : CredTable)
    (uid t1 t2 f : Str) (now : Int) (c : Credential)
    (hc : s uid = some c) (hh : c.hint = t2 ++ '|' :: f) (hne : t1 ≠ t2) :
    verify_reset_token tc s uid t1 now = false := by
  rw [verify_eq_some tc s uid t1 now c hc]
  have hne2 : c.hint ≠ [] := by
    rw [hh]
    cases t2 <;> simp
  rw [if_neg hne2]
  cases hsp : splitOnPipe c.hint with
  | nil => simp only []
  | cons s1 l1 =>
    cases l1 with
    | nil => simp only []
    | cons s2 l2 =>
      cases l2 with
      | cons s3 l3 => simp only []
      | nil =>
        rw [hh] at hsp
        obtain ⟨h1, h2⟩ := splitOnPipe_pair t2 f s1 s2 hsp
        simp only []
        cases hp : tc.parse s2 with
        | none => simp only []
        | some e =>
          simp only []
          rw [if_neg]
          rintro ⟨ht, hlt⟩
          exact hne (ht.trans h1)

/-- C4.  At most one active reset token exists per user: when `issue`
returned token `t1` and a later `issue` on the resulting state returned
token `t2 ≠ t1`, verifying `t1` afterwards returns `false`, because the
second issuance overwrote the stored token. -/
theorem second_issue_invalidates_first_token (cipher : Cipher)
    (tc : TimeCodec) (s : CredTable) (uid t1 t2 : Str)
    (e1 e2 now1 now2 now3 : Int)
    (h1 : (reset_password cipher tc s uid t1 now1).1 =
      some { token := t1, expiry := e1 })
    (h2 : (reset_password cipher tc
        (reset_password cipher tc s uid t1 now1).2 uid t2 now2).1 =
      some { token := t2, expiry := e2 })
    (hne : t1 ≠ t2) :
    verify_reset_token tc
      (reset_password cipher tc
        (reset_password cipher tc s uid t1 now1).2 uid t2 now2).2
      uid t1 now3 = false := by
  obtain ⟨c, hc, hhint⟩ := reset_password_some_hint cipher tc
    (reset_password cipher tc s uid t1 now1).2 uid t2 now2 _ h2
  exact verify_false_of_other_token tc _ uid t1 t2
    (tc.fmt (now2 + hours24)) now3 _ hhint rfl hne

/-- Witness for C4: issue `tokenOne`, then `tokenTwo`, for the stored
user; verifying `tokenOne` afterwards fails. -/
theorem second_issue_invalidates_first_token_inst :
    verify_reset_token noParseCodec
      (reset_password idCipher noParseCodec
        (reset_password idCipher noParseCodec tableA uidA tokA 0).2
        uidA tokB 0).2
      uidA tokA 5 = false :=
  second_issue_invalidates_first_token idCipher noParseCodec tableA uidA
    tokA tokB (0 + hours24) (0 + hours24) 0 0 5 rfl rfl (by decide)

/-- Counterexample to C3: the backend `store_credentials` writes a
credential record even when the username is the empty string — no
validation occurs and no error is raised. -/
theorem store_empty_username_writes_record :
    store_credentials idCipher (fun _ => none) uidA [] passA [] uidA =
      some { encrypted_username := [], encrypted_password := passA,
             hint := [], biometric_enabled := false } := rfl

/-- C3 (amended).  The backend `store_credentials` performs no input
validation: even with an empty `user_id`, `username` or `password` it
encrypts the fields and writes a record.  Emptiness is instead rejected
one layer up: the HTTP endpoint `store_credentials` of `src/app_api.py`
answers 400 and does not call the backend whenever a required field is
missing or empty. -/
theorem store_validation_at_api_layer :
    (∀ cipher s uid p h, store_credentials cipher s uid [] p h uid =
      some { encrypted_username := cipher.encrypt []
             encrypted_password := cipher.encrypt p
             hint := h
             biometric_enabled := false }) ∧
    (∀ cipher s uid u p h,
      pyFalsy uid = true ∨ pyFalsy u = true ∨ pyFalsy p = true →
      api_store_credentials cipher s uid u p h = (400, s)) := by
  constructor
  · intro cipher s uid p h
    unfold store_credentials
    rw [if_pos rfl]
  · intro cipher s uid u p h hf
    unfold api_store_credentials
    cases uid with
    | none => rfl
    | some a =>
      cases u with
      | none => rfl
      | some b =>
        cases p with
        | none => rfl
        | some d =>
          simp only [pyFalsy] at hf
          have hor : a = [] ∨ b = [] ∨ d = [] := by
            rcases hf with hx | hx | hx
            · exact Or.inl (List.isEmpty_iff.mp hx)
            · exact Or.inr (Or.inl (List.isEmpty_iff.mp hx))
            · exact Or.inr (Or.inr (List.isEmpty_iff.mp hx))
          simp only []
          rw [if_pos hor]

/-- Witness for the amended C3: the backend stores a record for an empty
username, while the API rejects a request with a missing username. -/
theorem store_validation_at_api_layer_inst :
    store_credentials idCipher (fun _ => none) uidA [] passA [] uidA =
      some { encrypted_username := idCipher.encrypt []
             encrypted_password := idCipher.encrypt passA
             hint := []
             biometric_enabled := false } ∧
    api_store_credentials idCipher tableA (some uidA) none (some passA) [] =
      (400, tableA) :=
  ⟨store_validation_at_api_layer.1 idCipher (fun _ => none) uidA passA [],
   store_validation_at_api_layer.2 idCipher tableA (some uidA) none
     (some passA) [] (Or.inr (Or.inl rfl))⟩

/-- C9.  Biometric enrollment and authentication can never succeed in
`src/ledger_backend.py`: the `face_recognition` module is never imported
there, so the first use raises `NameError`, which the blanket exception
handler converts into the failure result before any database write —
`enroll_user_biometrics` returns `False` with the `user_biometrics` table
unchanged and `authenticate_user_with_biometrics` returns `None`, for
every extraction collaborator, state and input. -/
theorem biometrics_never_succeed :
    (∀ extract bio uid img,
      enroll_user_biometrics extract bio uid img = (false, bio)) ∧
    (∀ extract reencode compareFaces bio img,
      authenticate_user_with_biometrics extract reencode compareFaces bio
        img = none) :=
  ⟨fun _ _ _ _ => rfl, fun _ _ _ _ _ => rfl⟩

/-- Counterexample to C7: at a concrete input where the
feature-extraction collaborator fails, `enroll` returns the same generic
`False` (with no state change) that it returns when no face is detected,
and `authenticate` returns the same `None`; no distinguishable
`ExtractionError` result exists in the code. -/
theorem extraction_failure_indistinguishable_concrete :
    enroll_user_biometrics (fun _ => .raised) [] uidA imgA = (false, []) ∧
    enroll_user_biometrics (fun _ => .found []) [] uidA imgA = (false, []) ∧
    authenticate_user_with_biometrics (fun _ => .raised) (fun _ => .raised)
      (fun _ _ => none) [] imgA = none ∧
    authenticate_user_with_biometrics (fun _ => .found [])
      (fun _ => .raised) (fun _ _ => none) [] imgA = none :=
  ⟨rfl, rfl, rfl, rfl⟩

/-- C7 (amended).  Feature-extraction failures are not propagated as a
distinct `ExtractionError`: both operations return exactly the same
generic failure value for a raising collaborator as for one that detects
no face (`False` for enroll, `None` for authenticate), for every state
and input. -/
theorem extraction_failure_collapses (bio : BioTable) (uid img : Str)
    (reencode : Encoding → ExtractOutcome)
    (compareFaces : List Encoding → Encoding → Option Bool) :
    enroll_user_biometrics (fun _ => .raised) bio uid img =
      enroll_user_biometrics (fun _ => .found []) bio uid img ∧
    authenticate_user_with_biometrics (fun _ => .raised) reencode
      compareFaces bio img =
      authenticate_user_with_biometrics (fun _ => .found []) reencode
        compareFaces bio img :=
  ⟨rfl, rfl⟩
